import Mathlib

/-!
Verification of the mcp-adguard-home server core against its specification.

JavaScript strings are modelled as `List Char`. The functions below are
shallow embeddings of the corresponding TypeScript functions in
`src/core/errors.ts`, `src/core/auth.ts`, `src/core/tools.ts`,
`src/core/client.ts`, `src/core/config.ts` and `src/tools/stats.ts`.
Environment-provided behaviour (the JS engine's `JSON.parse`, the network)
is modelled as explicit parameters.
-/

deriving instance DecidableEq for Except

namespace AdGuard

/-! ### JS string primitives -/

/-- JS `String.prototype.includes(sub)`: `sub` occurs as a contiguous
substring of `s`. -/
def hasSub : List Char → List Char → Bool
  | [], sub => sub.isEmpty
  | c :: rest, sub => sub.isPrefixOf (c :: rest) || hasSub rest sub

/-- Helper for JS `replaceAll` with the empty pattern: the replacement is
inserted at every position, including both ends. -/
def interleave (r : List Char) : List Char → List Char
  | [] => r
  | c :: rest => r ++ c :: interleave r rest

/-- Fuel-driven core of JS `String.prototype.replaceAll` for a non-empty
literal pattern: scan left to right, replace each leftmost occurrence and
continue after it (non-overlapping). The fuel is an upper bound on the
input length so the recursion is structural; with enough fuel the fuel
case is never reached. -/
def replaceAllFuel (pat r : List Char) : Nat → List Char → List Char
  | 0, s => s
  | _ + 1, [] => []
  | fuel + 1, c :: rest =>
    if pat.isPrefixOf (c :: rest) then
      r ++ replaceAllFuel pat r fuel (rest.drop (pat.length - 1))
    else
      c :: replaceAllFuel pat r fuel rest

/-- JS `s.replaceAll(pat, r)` for a literal pattern and a replacement
containing no `$` patterns. -/
def replaceAll (s pat r : List Char) : List Char :=
  if pat.isEmpty then interleave r s else replaceAllFuel pat r s.length s

/-! ### UTF-8 and base64 (Node `Buffer.from(str).toString('base64')`) -/

/-- UTF-8 encoding of a single code point. -/
def utf8Bytes (c : Char) : List Nat :=
  let n := c.toNat
  if n < 0x80 then [n]
  else if n < 0x800 then [0xC0 + n / 64, 0x80 + n % 64]
  else if n < 0x10000 then [0xE0 + n / 4096, 0x80 + n / 64 % 64, 0x80 + n % 64]
  else [0xF0 + n / 262144, 0x80 + n / 4096 % 64, 0x80 + n / 64 % 64, 0x80 + n % 64]

/-- UTF-8 encoding of a string. -/
def utf8Encode (s : List Char) : List Nat := (s.map utf8Bytes).flatten

/-- The 64 base64 digits in order. -/
def base64Alphabet : List Char :=
  "ABCDEFGHIJKLMNOPQRSTUVWXYZabcdefghijklmnopqrstuvwxyz0123456789+/".toList

/-- Digit `n` (0 ≤ n < 64) of the base64 alphabet. -/
def b64char (n : Nat) : Char := base64Alphabet.getD n 'A'

/-- Standard base64 encoding with `=` padding, as produced by Node's
`Buffer.toString('base64')`. -/
def base64Encode : List Nat → List Char
  | [] => []
  | [a] => [b64char (a / 4), b64char (a % 4 * 16), '=', '=']
  | [a, b] => [b64char (a / 4), b64char (a % 4 * 16 + b / 16), b64char (b % 16 * 4), '=']
  | a :: b :: c :: rest =>
    b64char (a / 4) :: b64char (a % 4 * 16 + b / 16) ::
      b64char (b % 16 * 4 + c / 64) :: b64char (c % 64) :: base64Encode rest

/-! ### Credential sanitizer (`src/core/errors.ts`) and auth header -/

/-- The `{username, password}` pair taken by `sanitizeMessage`. -/
structure SanConfig where
  username : List Char
  password : List Char

/-- The base64 payload of the Basic-Auth header:
`Buffer.from(username + ":" + password).toString('base64')`. -/
def basicAuthB64 (username password : List Char) : List Char :=
  base64Encode (utf8Encode (username ++ ':' :: password))

/-- `createAuthHeader` from `src/core/auth.ts`. -/
def createAuthHeader (username password : List Char) : List Char :=
  "Basic ".toList ++ basicAuthB64 username password

/-- The fixed redaction marker used by `sanitizeMessage`. -/
def redactionMarker : List Char := "[REDACTED]".toList

/-- One guarded replacement pass of `sanitizeMessage`: skip falsy (empty)
values, otherwise replace every occurrence with `[REDACTED]`. -/
def sanitizeStep (s pat : List Char) : List Char :=
  if pat.isEmpty then s else replaceAll s pat redactionMarker

/-- `sanitizeMessage` from `src/core/errors.ts`: replace every occurrence
of the password, then of the username, then of the Basic-Auth base64
string with `[REDACTED]`; empty (falsy) values are skipped. -/
def sanitizeMessage (message : List Char) (cfg : SanConfig) : List Char :=
  sanitizeStep (sanitizeStep (sanitizeStep message cfg.password) cfg.username)
    (basicAuthB64 cfg.username cfg.password)

/-! ### Data model (`src/types/index.ts`) -/

/-- Access tier: `'read-only' | 'full'`. -/
inductive AccessTier
  | readOnly
  | full
deriving DecidableEq, Repr

/-- `VALID_CATEGORIES` from `src/types/index.ts`: the closed set of 16
category tags. Categories are modelled as their string values. -/
def VALID_CATEGORIES : List (List Char) :=
  ["global".toList, "dns".toList, "querylog".toList, "stats".toList,
   "filtering".toList, "safebrowsing".toList, "parental".toList,
   "safesearch".toList, "clients".toList, "dhcp".toList, "rewrites".toList,
   "tls".toList, "blocked_services".toList, "access".toList,
   "install".toList, "mobile_config".toList]

/-- `AppConfig` from `src/types/index.ts`. `categories = none` models the
TypeScript `null` (unrestricted) marker. -/
structure AppConfig where
  url : List Char
  username : List Char
  password : List Char
  accessTier : AccessTier
  categories : Option (List (List Char))
  debug : Bool
  confirmDestructive : Bool
deriving DecidableEq, Repr

/-- The `{username, password}` view of an `AppConfig` passed to
`sanitizeMessage`. -/
def sanCfg (cfg : AppConfig) : SanConfig := ⟨cfg.username, cfg.password⟩

/-- The fields of a `ToolRegistration` descriptor inspected by the
registration gate (`name`, `description`, `category`, `accessTier`); the
handler is modelled separately as a function into `HandlerResult`. -/
structure ToolRegistration where
  name : List Char
  description : List Char
  category : List Char
  accessTier : AccessTier

/-! ### Tool registration and the handler wrapper (`src/core/tools.ts`) -/

/-- A value thrown by a JS handler: an `Error` object carrying a message,
or any other thrown value. -/
inductive JsThrown
  | errObj (message : List Char)
  | nonError

/-- The outcome of awaiting the underlying handler: a returned string or a
thrown value. -/
inductive HandlerResult
  | ok (s : List Char)
  | thrown (e : JsThrown)

/-- The tool-call result produced by the wrapper installed by
`registerTool`: one text content block, plus the `isError` flag (absent,
i.e. `false`, on the success path). -/
structure ToolCallResult where
  text : List Char
  isError : Bool
deriving DecidableEq, Repr

/-- The fixed text used when a non-`Error` value is thrown. -/
def unknownErrorText : List Char := "An unknown error occurred".toList

/-- The handler wrapper body from `registerTool` (src/core/tools.ts,
try/catch around `registration.handler`): map the awaited handler outcome
to a tool-call result, sanitizing `Error` messages. -/
def wrapHandlerOutcome (cfg : AppConfig) (res : HandlerResult) : ToolCallResult :=
  match res with
  | .ok s => ⟨s, false⟩
  | .thrown (.errObj m) => ⟨sanitizeMessage m (sanCfg cfg), true⟩
  | .thrown .nonError => ⟨unknownErrorText, true⟩

/-- `registerTool` from `src/core/tools.ts`, as seen by its caller: the
returned boolean, plus the wrapper installed on the MCP server when the
tool is registered (`none` when it is filtered out). -/
def registerTool (cfg : AppConfig) (reg : ToolRegistration) :
    Bool × Option (HandlerResult → ToolCallResult) :=
  if cfg.accessTier == .readOnly && reg.accessTier == .full then
    (false, none)
  else
    match cfg.categories with
    | some cats =>
      if !cats.contains reg.category then (false, none)
      else (true, some (wrapHandlerOutcome cfg))
    | none => (true, some (wrapHandlerOutcome cfg))

/-! ### HTTP client (`src/core/client.ts`) -/

/-- The parts of a `fetch` `Response` the client inspects. The two header
lookups model `headers.get('content-type')` / `headers.get('content-length')`
(`none` = header absent, i.e. JS `null`). -/
structure HttpResponse where
  status : Nat
  statusText : List Char
  contentType : Option (List Char)
  contentLength : Option (List Char)
  body : List Char

/-- `Response.ok`: status in the range 200-299. -/
def responseOk (r : HttpResponse) : Bool :=
  200 ≤ r.status && r.status ≤ 299

/-- The outcome of a `fetch` call: a response, or a rejection (network
failure / timeout abort) carrying the thrown error's message. -/
inductive FetchOutcome
  | response (r : HttpResponse)
  | failure (message : List Char)

/-- `AdGuardError` from `src/core/errors.ts`: message plus optional HTTP
status code. -/
structure AdGuardError where
  message : List Char
  statusCode : Option Nat
deriving DecidableEq, Repr

/-- A JSON value as produced by the engine's `JSON.parse`. -/
inductive Json
  | null
  | bool (b : Bool)
  | num (n : Int)
  | str (s : List Char)
  | arr (elems : List Json)
  | obj (fields : List (List Char × Json))

/-- The engine's `JSON.parse`, modelled as a parameter: a parsed value, or
the message of the thrown `SyntaxError`. -/
def JsonParse : Type := List Char → Except (List Char) Json

/-- A value returned by `get`/`post`: parsed JSON or text. -/
inductive ApiValue
  | json (v : Json)
  | text (s : List Char)

/-- Decimal rendering of a status code, as in JS template interpolation. -/
def natStr (n : Nat) : List Char := (Nat.repr n).toList

/-- `AdGuardClient.parseResponse`: JSON-parse the body when the
content-type includes `json` (propagating the `response.json()` throw as
an error), otherwise return the body text. -/
def parseResponse (parse : JsonParse) (r : HttpResponse) :
    Except (List Char) ApiValue :=
  let ct := r.contentType.getD []
  if hasSub ct "json".toList then
    match parse r.body with
    | .ok v => .ok (.json v)
    | .error m => .error m
  else .ok (.text r.body)

/-- `AdGuardClient.get`: non-2xx becomes a sanitized `AdGuardError` with
the status code; otherwise the response is parsed by `parseResponse`, and
a parse throw is re-wrapped by the catch block into a sanitized
`AdGuardError` without a status code. -/
def clientGet (parse : JsonParse) (cfg : AppConfig) (path : List Char)
    (outcome : FetchOutcome) : Except AdGuardError ApiValue :=
  match outcome with
  | .failure m => .error ⟨sanitizeMessage m (sanCfg cfg), none⟩
  | .response r =>
    if !responseOk r then
      .error ⟨sanitizeMessage
        ("GET ".toList ++ path ++ " failed: ".toList ++ natStr r.status ++
          " ".toList ++ r.statusText) (sanCfg cfg), some r.status⟩
    else
      match parseResponse parse r with
      | .ok v => .ok v
      | .error m => .error ⟨sanitizeMessage m (sanCfg cfg), none⟩

/-- `AdGuardClient.post`: like `get`, but a success with content-length
header `"0"` or an empty body returns the empty string, and a JSON parse
failure falls back to the raw body text. The request body argument only
affects the outgoing request, never the result mapping. -/
def clientPost (parse : JsonParse) (cfg : AppConfig) (path : List Char)
    (reqBody : Option Json) (outcome : FetchOutcome) :
    Except AdGuardError ApiValue :=
  match outcome with
  | .failure m => .error ⟨sanitizeMessage m (sanCfg cfg), none⟩
  | .response r =>
    if !responseOk r then
      .error ⟨sanitizeMessage
        ("POST ".toList ++ path ++ " failed: ".toList ++ natStr r.status ++
          " ".toList ++ r.statusText) (sanCfg cfg), some r.status⟩
    else if r.contentLength == some ['0'] then .ok (.text [])
    else if r.body.isEmpty then .ok (.text [])
    else
      let ct := r.contentType.getD []
      if hasSub ct "json".toList then
        match parse r.body with
        | .ok v => .ok (.json v)
        | .error _ => .ok (.text r.body)
      else .ok (.text r.body)

/-- The fixed authentication-failure message of `validateConnection`. -/
def authFailedMessage : List Char :=
  "Authentication failed -- check ADGUARD_USERNAME and ADGUARD_PASSWORD".toList

/-- `AdGuardClient.validateConnection`: 401/403 yields the fixed
authentication-failure error; any other non-2xx a sanitized connection
error; a transport failure a sanitized error naming the base URL. -/
def validateConnection (cfg : AppConfig) (outcome : FetchOutcome) :
    Except AdGuardError Unit :=
  match outcome with
  | .failure m =>
    .error ⟨sanitizeMessage
      ("Cannot connect to AdGuard Home at ".toList ++ cfg.url ++
        ": ".toList ++ m) (sanCfg cfg), none⟩
  | .response r =>
    if r.status == 401 || r.status == 403 then
      .error ⟨authFailedMessage, some r.status⟩
    else if !responseOk r then
      .error ⟨sanitizeMessage
        ("Connection check failed: ".toList ++ natStr r.status ++
          " ".toList ++ r.statusText) (sanCfg cfg), some r.status⟩
    else .ok ()

/-! ### stats_reset handler (`src/tools/stats.ts`) -/

/-- The literal confirmation-prompt text of the `stats_reset` handler. -/
def statsResetPrompt : List Char :=
  "This is a destructive operation that cannot be undone. Set confirm: true to proceed.".toList

/-- The `stats_reset` handler: when `config.confirmDestructive` is set and
the `confirm` argument is falsy, return the confirmation prompt without
calling `client.post`; otherwise issue `POST stats_reset` and report
success (or propagate the post's error). The first component lists the
POST paths issued. -/
def statsResetHandler (cfg : AppConfig) (confirm : Option Bool)
    (postOutcome : Except AdGuardError ApiValue) :
    List (List Char) × Except AdGuardError (List Char) :=
  if cfg.confirmDestructive && !(confirm.getD false) then
    ([], .ok statsResetPrompt)
  else
    (["stats_reset".toList], postOutcome.map fun _ => "Statistics reset.".toList)

/-! ### Configuration loading (`src/core/config.ts`) -/

/-- The environment variables read by `loadConfig` (`none` = unset). -/
structure Env where
  adguardUrl : Option (List Char)
  adguardUsername : Option (List Char)
  adguardPassword : Option (List Char)
  adguardAccessTier : Option (List Char)
  adguardCategories : Option (List Char)
  debugVar : Option (List Char)
  adguardConfirmDestructive : Option (List Char)

/-- JS truthiness of an environment variable: set and non-empty. -/
def envTruthy : Option (List Char) → Bool
  | none => false
  | some s => !s.isEmpty

/-- The whitespace characters stripped by JS `String.prototype.trim`
(ASCII subset). -/
def isJsWs (c : Char) : Bool :=
  c == ' ' || c == '\t' || c == '\n' || c == '\r' ||
    c == Char.ofNat 11 || c == Char.ofNat 12

/-- JS `String.prototype.trim`. -/
def jsTrim (s : List Char) : List Char :=
  ((s.dropWhile isJsWs).reverse.dropWhile isJsWs).reverse

/-- JS `String.prototype.toLowerCase` (ASCII behaviour). -/
def jsToLower (s : List Char) : List Char := s.map Char.toLower

/-- JS `String.prototype.split(',')`. -/
def splitOnComma : List Char → List (List Char)
  | [] => [[]]
  | c :: rest =>
    if c == ',' then [] :: splitOnComma rest
    else
      match splitOnComma rest with
      | [] => [[c]]
      | p :: ps => (c :: p) :: ps

/-- `url.replace(/\/+$/, '')`: strip the maximal run of trailing slashes. -/
def stripTrailingSlashes (s : List Char) : List Char :=
  (s.reverse.dropWhile (fun c => c == '/')).reverse

/-- JS `Array.prototype.join(', ')`. -/
def joinCommaSpace : List (List Char) → List Char
  | [] => []
  | [x] => x
  | x :: xs => x ++ ", ".toList ++ joinCommaSpace xs

/-- The access-tier parsing step of `loadConfig`: when the variable is
truthy, lowercase then trim it and require `read-only` or `full`. -/
def parseTier (tierRaw : Option (List Char)) : Except (List Char) AccessTier :=
  if envTruthy tierRaw then
    let normalized := jsTrim (jsToLower (tierRaw.getD []))
    if normalized == "read-only".toList then .ok .readOnly
    else if normalized == "full".toList then .ok .full
    else .error ("Invalid ADGUARD_ACCESS_TIER: \"".toList ++ tierRaw.getD [] ++
      "\". Must be \"read-only\" or \"full\".".toList)
  else .ok .full

/-- The `parsed` list of the category parsing step of `loadConfig`: split
on commas, trim and lowercase each piece, drop empties. -/
def parseCategoriesParsed (raw : List Char) : List (List Char) :=
  ((splitOnComma raw).map (fun c => jsToLower (jsTrim c))).filter
    (fun c => !c.isEmpty)

/-- The category parsing step of `loadConfig`: when the variable is truthy,
compute `parsed` and require every element to be a valid category tag. -/
def parseCategories (raw : Option (List Char)) :
    Except (List Char) (Option (List (List Char))) :=
  if envTruthy raw then
    if !((parseCategoriesParsed (raw.getD [])).filter
        (fun c => !VALID_CATEGORIES.contains c)).isEmpty then
      .error ("Invalid ADGUARD_CATEGORIES: ".toList ++
        joinCommaSpace (((parseCategoriesParsed (raw.getD [])).filter
          (fun c => !VALID_CATEGORIES.contains c)).map
          (fun c => '"' :: c ++ ['"'])) ++
        ". Valid categories: ".toList ++ joinCommaSpace VALID_CATEGORIES)
    else .ok (some (parseCategoriesParsed (raw.getD [])))
  else .ok none

/-- `ADGUARD_CONFIRM_DESTRUCTIVE?.toLowerCase() === 'true'`. -/
def parseConfirmDestructive : Option (List Char) → Bool
  | none => false
  | some s => jsToLower s == "true".toList

/-- `loadConfig` from `src/core/config.ts`. -/
def loadConfig (env : Env) : Except (List Char) AppConfig :=
  let missing : List (List Char) :=
    (if !envTruthy env.adguardUrl then ["ADGUARD_URL".toList] else []) ++
    (if !envTruthy env.adguardUsername then ["ADGUARD_USERNAME".toList] else []) ++
    (if !envTruthy env.adguardPassword then ["ADGUARD_PASSWORD".toList] else [])
  if !missing.isEmpty then
    .error ("Missing required environment variables: ".toList ++
      joinCommaSpace missing ++
      ". Set these variables to connect to your AdGuard Home instance.".toList)
  else
    match parseTier env.adguardAccessTier with
    | .error e => .error e
    | .ok accessTier =>
      match parseCategories env.adguardCategories with
      | .error e => .error e
      | .ok categories =>
        .ok ⟨stripTrailingSlashes (env.adguardUrl.getD []),
          env.adguardUsername.getD [], env.adguardPassword.getD [],
          accessTier, categories, envTruthy env.debugVar,
          parseConfirmDestructive env.adguardConfirmDestructive⟩

/-! ## Theorems -/

/-- C2: `registerTool` returns `false` iff the config is read-only and the
descriptor requires full access, or a category allowlist is present and
the descriptor's category is not in it; otherwise it returns `true`. -/
theorem registerTool_false_iff (cfg : AppConfig) (reg : ToolRegistration) :
    (registerTool cfg reg).1 = false ↔
      ((cfg.accessTier = .readOnly ∧ reg.accessTier = .full) ∨
        (∃ cats, cfg.categories = some cats ∧ reg.category ∉ cats)) := by
  obtain ⟨url, u, p, tier, cats?, dbg, cd⟩ := cfg
  obtain ⟨n, d, cat, rtier⟩ := reg
  cases tier <;> cases rtier <;> cases cats? <;>
    simp [registerTool, List.elem_iff] <;>
    split <;> simp_all [List.elem_iff]

/-- C2 witness: a read-only config rejects a full-tier descriptor. -/
theorem registerTool_false_iff_witness :
    (registerTool ⟨"http://h".toList, "u".toList, "p".toList, .readOnly,
        none, false, false⟩
      ⟨"stats_reset".toList, "d".toList, "stats".toList, .full⟩).1 = false :=
  (registerTool_false_iff _ _).mpr (Or.inl ⟨rfl, rfl⟩)

/-- C3: the wrapper installed by `registerTool` maps a returned string to
a non-error text result, and any thrown value to an error-flagged result
whose text, for a thrown `Error`, is the sanitized error message — no
exception crosses the boundary (the wrapper is a total function into
`ToolCallResult`). -/
theorem registerTool_wrapper_spec (cfg : AppConfig) (reg : ToolRegistration)
    (w : HandlerResult → ToolCallResult)
    (hw : (registerTool cfg reg).2 = some w) :
    (∀ s, w (.ok s) = ⟨s, false⟩) ∧
    (∀ e, (w (.thrown e)).isError = true) ∧
    (∀ m, w (.thrown (.errObj m)) =
      ⟨sanitizeMessage m (sanCfg cfg), true⟩) := by
  have hw' : w = wrapHandlerOutcome cfg := by
    unfold registerTool at hw
    split at hw
    · simp at hw
    · split at hw <;> simp_all <;> split at hw <;> simp_all
  subst hw'
  refine ⟨fun s => rfl, fun e => ?_, fun m => rfl⟩
  cases e <;> rfl

/-- C3 witness: on a registered tool, the wrapper passes through a
returned string unflagged. -/
theorem registerTool_wrapper_spec_witness :
    (registerTool ⟨"http://h".toList, "u".toList, "p".toList, .full, none,
          false, false⟩
        ⟨"stats_get".toList, "d".toList, "stats".toList, .readOnly⟩).2 =
      some (wrapHandlerOutcome ⟨"http://h".toList, "u".toList, "p".toList,
        .full, none, false, false⟩) ∧
    wrapHandlerOutcome ⟨"http://h".toList, "u".toList, "p".toList, .full,
        none, false, false⟩ (.ok "DNS Statistics".toList) =
      ⟨"DNS Statistics".toList, false⟩ :=
  ⟨rfl, (registerTool_wrapper_spec
    ⟨"http://h".toList, "u".toList, "p".toList, .full, none, false, false⟩
    ⟨"stats_get".toList, "d".toList, "stats".toList, .readOnly⟩
    (wrapHandlerOutcome ⟨"http://h".toList, "u".toList, "p".toList, .full,
      none, false, false⟩) rfl).1 _⟩

/-- C6: `validateConnection` against a 401 or 403 response fails with the
exact fixed message
`Authentication failed -- check ADGUARD_USERNAME and ADGUARD_PASSWORD`
(independent of the configuration, with no status-specific suffix),
carrying the response status. -/
theorem validateConnection_auth_failure (cfg : AppConfig) (r : HttpResponse)
    (h : r.status = 401 ∨ r.status = 403) :
    validateConnection cfg (.response r) =
      .error ⟨("Authentication failed -- check ADGUARD_USERNAME " ++
        "and ADGUARD_PASSWORD").toList, some r.status⟩ := by
  have hb : (r.status == 401 || r.status == 403) = true := by
    rcases h with h | h <;> simp [h]
  have hm : ("Authentication failed -- check ADGUARD_USERNAME " ++
      "and ADGUARD_PASSWORD").toList = authFailedMessage := by decide
  rw [hm]
  simp [validateConnection, hb]

/-- C6 witness: a 401 status yields exactly the fixed message. -/
theorem validateConnection_auth_failure_witness :
    validateConnection ⟨"http://h".toList, "admin".toList, "pw".toList,
        .full, none, false, false⟩
        (.response ⟨401, "Unauthorized".toList, none, none, []⟩) =
      .error ⟨("Authentication failed -- check ADGUARD_USERNAME " ++
        "and ADGUARD_PASSWORD").toList, some 401⟩ :=
  validateConnection_auth_failure _ _ (Or.inl rfl)

/-- C7: a successful `post` response with content-length header `"0"`
returns the empty string, whatever the body and request body are. -/
theorem post_content_length_zero (parse : JsonParse) (cfg : AppConfig)
    (path : List Char) (reqBody : Option Json) (r : HttpResponse)
    (hok : responseOk r = true) (hcl : r.contentLength = some ['0']) :
    clientPost parse cfg path reqBody (.response r) = .ok (.text []) := by
  simp [clientPost, hok, hcl]

/-- C7 witness: a 200 response with content-length `"0"` and a non-empty
body still yields the empty string. -/
theorem post_content_length_zero_witness :
    responseOk ⟨200, "OK".toList, some "application/json".toList,
        some ['0'], "ignored".toList⟩ = true ∧
    clientPost (fun _ => .error "boom".toList)
        ⟨"http://h".toList, "u".toList, "p".toList, .full, none, false, false⟩
        "stats_reset".toList none
        (.response ⟨200, "OK".toList, some "application/json".toList,
          some ['0'], "ignored".toList⟩) = .ok (.text []) :=
  ⟨by decide, post_content_length_zero _ _ _ _ _ (by decide) rfl⟩

/-- C8: with `confirmDestructive` set and no (or a false) `confirm`
argument, the `stats_reset` handler returns the literal confirmation
prompt and issues no POST request. -/
theorem stats_reset_requires_confirm (cfg : AppConfig)
    (confirm : Option Bool) (po : Except AdGuardError ApiValue)
    (hd : cfg.confirmDestructive = true)
    (hc : confirm = none ∨ confirm = some false) :
    statsResetHandler cfg confirm po = ([], .ok statsResetPrompt) := by
  have hcf : confirm.getD false = false := by
    rcases hc with h | h <;> simp [h]
  simp [statsResetHandler, hd, hcf]

/-- C8 witness: with the flag set and `confirm` absent the prompt is
returned and the issued-request list is empty. -/
theorem stats_reset_requires_confirm_witness :
    statsResetHandler ⟨"http://h".toList, "u".toList, "p".toList, .full,
        none, false, true⟩ none (.ok (.text [])) =
      ([], .ok statsResetPrompt) :=
  stats_reset_requires_confirm _ none _ rfl (Or.inl rfl)

/-! ### Helper lemmas about `loadConfig` -/

theorem head_dropWhile_false {p : Char → Bool} (l : List Char) (a : Char)
    (h : (l.dropWhile p).head? = some a) : p a = false := by
  induction l with
  | nil => simp [List.dropWhile] at h
  | cons c rest ih =>
    by_cases hc : p c
    · rw [List.dropWhile_cons_of_pos hc] at h
      exact ih h
    · rw [List.dropWhile_cons_of_neg hc] at h
      simp at h
      subst h
      simpa using hc

theorem stripTrailingSlashes_getLast (s : List Char) :
    (stripTrailingSlashes s).getLast? ≠ some '/' := by
  unfold stripTrailingSlashes
  rw [List.getLast?_reverse]
  intro h
  have := head_dropWhile_false _ _ h
  simp at this

theorem envTruthy_getD (o : Option (List Char)) (h : envTruthy o = true) :
    o.getD [] ≠ [] := by
  cases o with
  | none => simp [envTruthy] at h
  | some s =>
    simp only [envTruthy, Bool.not_eq_true'] at h
    simpa [List.isEmpty_iff] using h

theorem parseCategories_valid (raw : Option (List Char))
    (cats : List (List Char)) (h : parseCategories raw = .ok (some cats)) :
    ∀ c ∈ cats, c ∈ VALID_CATEGORIES := by
  unfold parseCategories at h
  split at h
  · split at h
    · simp at h
    · rename_i hinv
      simp only [Except.ok.injEq, Option.some.injEq] at h
      subst h
      intro c hc
      have hnil : ((parseCategoriesParsed (raw.getD [])).filter
          (fun c => !VALID_CATEGORIES.contains c)) = [] := by
        simpa [List.isEmpty_iff] using hinv
      have := List.filter_eq_nil_iff.mp hnil c hc
      simpa [List.elem_iff] using this
  · simp at h

theorem splitOnComma_chars (s : List Char) :
    ∀ part ∈ splitOnComma s, ∀ c ∈ part, c ∈ s ∧ c ≠ ',' := by
  induction s with
  | nil =>
    intro part hp c hc
    simp [splitOnComma] at hp
    subst hp
    simp at hc
  | cons a rest ih =>
    intro part hp c hc
    by_cases ha : a = ','
    · rw [splitOnComma, if_pos (by simp [ha])] at hp
      rcases List.mem_cons.mp hp with hp | hp
      · subst hp; simp at hc
      · have := ih part hp c hc
        exact ⟨List.mem_cons_of_mem _ this.1, this.2⟩
    · rw [splitOnComma, if_neg (by simp [ha])] at hp
      cases hsr : splitOnComma rest with
      | nil =>
        rw [hsr] at hp
        simp at hp
        subst hp
        simp at hc
        subst hc
        exact ⟨List.mem_cons_self _ _, ha⟩
      | cons p ps =>
        rw [hsr] at hp
        rcases List.mem_cons.mp hp with hp | hp
        · subst hp
          rcases List.mem_cons.mp hc with hc | hc
          · subst hc
            exact ⟨List.mem_cons_self _ _, ha⟩
          · have hpmem : p ∈ splitOnComma rest := by rw [hsr]; exact List.mem_cons_self _ _
            have := ih p hpmem c hc
            exact ⟨List.mem_cons_of_mem _ this.1, this.2⟩
        · have hpmem : part ∈ splitOnComma rest := by
            rw [hsr]; exact List.mem_cons_of_mem _ hp
          have := ih part hpmem c hc
          exact ⟨List.mem_cons_of_mem _ this.1, this.2⟩

theorem jsTrim_all_ws (l : List Char) (h : ∀ c ∈ l, isJsWs c = true) :
    jsTrim l = [] := by
  unfold jsTrim
  have h1 : l.dropWhile isJsWs = [] := List.dropWhile_eq_nil_iff.mpr h
  simp [h1]

/-- C9: every configuration successfully produced by `loadConfig`
satisfies the data-model invariant: no trailing slash on the URL,
non-empty username and password, and all allowlisted categories drawn from
the 16 valid tags. -/
theorem loadConfig_invariant (env : Env) (cfg : AppConfig)
    (h : loadConfig env = .ok cfg) :
    cfg.url.getLast? ≠ some '/' ∧ cfg.username ≠ [] ∧ cfg.password ≠ [] ∧
      ∀ cats, cfg.categories = some cats → ∀ c ∈ cats, c ∈ VALID_CATEGORIES := by
  unfold loadConfig at h
  by_cases h1 : envTruthy env.adguardUrl
  case neg => simp [h1] at h
  by_cases h2 : envTruthy env.adguardUsername
  case neg => simp [h1, h2] at h
  by_cases h3 : envTruthy env.adguardPassword
  case neg => simp [h1, h2, h3] at h
  simp only [h1, h2, h3, Bool.not_true, if_false, List.append_nil,
    List.isEmpty_nil, Bool.not_false, if_neg, Bool.false_eq_true,
    not_false_eq_true, if_true] at h
  split at h
  · simp at h
  · split at h
    · simp at h
    · rename_i cats hcats
      simp only [Except.ok.injEq] at h
      subst h
      refine ⟨stripTrailingSlashes_getLast _, envTruthy_getD _ h2,
        envTruthy_getD _ h3, ?_⟩
      intro cs hcs
      exact parseCategories_valid _ cs (hcats.trans (congrArg Except.ok hcs))

/-- C9 witness: a concrete well-formed environment yields a configuration
satisfying every invariant conjunct. -/
theorem loadConfig_invariant_witness :
    loadConfig ⟨some "http://h//".toList, some "admin".toList,
        some "pw".toList, none, some "dns,stats".toList, none, none⟩ =
      .ok ⟨"http://h".toList, "admin".toList, "pw".toList, .full,
        some ["dns".toList, "stats".toList], false, false⟩ ∧
    ("http://h".toList.getLast? ≠ some '/' ∧ "admin".toList ≠ [] ∧
      "pw".toList ≠ [] ∧
      ∀ cats, (some ["dns".toList, "stats".toList] : Option (List (List Char)))
        = some cats → ∀ c ∈ cats, c ∈ VALID_CATEGORIES) := by
  refine ⟨by decide, ?_⟩
  exact loadConfig_invariant
    ⟨some "http://h//".toList, some "admin".toList, some "pw".toList, none,
      some "dns,stats".toList, none, none⟩
    ⟨"http://h".toList, "admin".toList, "pw".toList, .full,
      some ["dns".toList, "stats".toList], false, false⟩ (by decide)

/-- C10: a categories variable made only of commas and whitespace is
accepted by `loadConfig` and produces an empty (non-`null`) allowlist,
under which `registerTool` rejects every descriptor. -/
theorem blank_categories_blocks_all (env : Env) (s : List Char)
    (cfg : AppConfig) (hs : env.adguardCategories = some s) (hne : s ≠ [])
    (hch : ∀ c ∈ s, c = ',' ∨ isJsWs c = true)
    (h : loadConfig env = .ok cfg) :
    cfg.categories = some [] ∧
      ∀ reg, (registerTool cfg reg).1 = false := by
  have hparsed : parseCategoriesParsed s = [] := by
    unfold parseCategoriesParsed
    apply List.filter_eq_nil_iff.mpr
    intro x hx
    rcases List.mem_map.mp hx with ⟨part, hpart, hxeq⟩
    have hws : ∀ c ∈ part, isJsWs c = true := by
      intro c hc
      have hcs := splitOnComma_chars _ part hpart c hc
      rcases hch c hcs.1 with hcomma | hws
      · exact absurd hcomma hcs.2
      · exact hws
    have htr : jsTrim part = [] := jsTrim_all_ws _ hws
    simp [← hxeq, htr, jsToLower]
  have hpc : parseCategories env.adguardCategories = .ok (some []) := by
    rw [hs]
    unfold parseCategories
    have htru : envTruthy (some s) = true := by
      simpa [envTruthy, List.isEmpty_iff] using hne
    rw [if_pos htru]
    have hsg : (some s : Option (List Char)).getD [] = s := rfl
    rw [hsg, hparsed]
    simp
  have hcat : cfg.categories = some [] := by
    unfold loadConfig at h
    by_cases h1 : envTruthy env.adguardUrl
    case neg => simp [h1] at h
    by_cases h2 : envTruthy env.adguardUsername
    case neg => simp [h1, h2] at h
    by_cases h3 : envTruthy env.adguardPassword
    case neg => simp [h1, h2, h3] at h
    simp only [h1, h2, h3, Bool.not_true, if_false, List.append_nil,
      List.isEmpty_nil, Bool.not_false, if_neg, Bool.false_eq_true,
      not_false_eq_true, if_true] at h
    split at h
    · simp at h
    · simp only [hpc] at h
      simp only [Except.ok.injEq] at h
      subst h
      rfl
  refine ⟨hcat, fun reg => ?_⟩
  unfold registerTool
  split
  · rfl
  · rw [hcat]
    simp

/-- C10 witness: the environment variable `" , ,"` yields an empty
allowlist that blocks a sample read-only stats tool. -/
theorem blank_categories_blocks_all_witness :
    loadConfig ⟨some "http://h".toList, some "admin".toList,
        some "pw".toList, none, some " , ,".toList, none, none⟩ =
      .ok ⟨"http://h".toList, "admin".toList, "pw".toList, .full, some [],
        false, false⟩ ∧
    (⟨"http://h".toList, "admin".toList, "pw".toList, .full, some [],
        false, false⟩ : AppConfig).categories = some [] ∧
    (registerTool ⟨"http://h".toList, "admin".toList, "pw".toList, .full,
        some [], false, false⟩
      ⟨"stats_get".toList, "d".toList, "stats".toList, .readOnly⟩).1 = false := by
  have hmain := blank_categories_blocks_all
    ⟨some "http://h".toList, some "admin".toList, some "pw".toList, none,
      some " , ,".toList, none, none⟩
    " , ,".toList
    ⟨"http://h".toList, "admin".toList, "pw".toList, .full, some [],
      false, false⟩
    rfl (by decide) (by decide) (by decide)
  exact ⟨by decide, hmain.1, hmain.2 _⟩

/-! ### Helper lemmas about `replaceAll` and the sanitizer -/

theorem hasSub_of_isPrefixOf {s sub : List Char}
    (h : sub.isPrefixOf s = true) : hasSub s sub = true := by
  cases s with
  | nil =>
    cases sub with
    | nil => rfl
    | cons c cs => simp [List.isPrefixOf] at h
  | cons c rest => simp [hasSub, h]

theorem hasSub_tail {c : Char} {rest sub : List Char}
    (h : hasSub (c :: rest) sub = false) : hasSub rest sub = false := by
  simp only [hasSub, Bool.or_eq_false_iff] at h
  exact h.2

theorem hasSub_drop {s sub : List Char} (k : Nat)
    (h : hasSub s sub = false) : hasSub (s.drop k) sub = false := by
  induction k generalizing s with
  | zero => simpa using h
  | succ k ih =>
    cases s with
    | nil => simpa using h
    | cons c rest => exact ih (hasSub_tail h)

theorem isPrefixOf_through_close {t sub : List Char} (pre : List Char)
    (hnb : ']' ∉ sub) (h : sub.isPrefixOf (pre ++ ']' :: t) = true) :
    sub.isPrefixOf pre = true := by
  induction pre generalizing sub with
  | nil =>
    cases sub with
    | nil => rfl
    | cons c cs =>
      simp only [List.nil_append, List.isPrefixOf, Bool.and_eq_true,
        beq_iff_eq] at h
      exact absurd (h.1 ▸ List.mem_cons_self c cs) hnb
  | cons a pre' ih =>
    cases sub with
    | nil => rfl
    | cons c cs =>
      simp only [List.cons_append, List.isPrefixOf, Bool.and_eq_true,
        beq_iff_eq] at h ⊢
      exact ⟨h.1, ih (fun hm => hnb (List.mem_cons_of_mem _ hm)) h.2⟩

theorem hasSub_seg_close {sub : List Char} (w t : List Char)
    (hnb : ']' ∉ sub) (hne : sub ≠ []) (hw : hasSub w sub = false) :
    hasSub (w ++ ']' :: t) sub = hasSub t sub := by
  induction w with
  | nil =>
    have hp : sub.isPrefixOf (']' :: t) = false := by
      cases sub with
      | nil => exact absurd rfl hne
      | cons c cs =>
        by_cases hc : c = ']'
        · exact absurd (hc ▸ List.mem_cons_self c cs) hnb
        · simp [List.isPrefixOf, hc]
    simp [hasSub, hp]
  | cons a w' ih =>
    have hw' : hasSub w' sub = false := hasSub_tail hw
    have hp : sub.isPrefixOf (a :: (w' ++ ']' :: t)) = false := by
      by_contra hcon
      have hcon' : sub.isPrefixOf ((a :: w') ++ ']' :: t) = true := by
        simpa using hcon
      have := hasSub_of_isPrefixOf (isPrefixOf_through_close _ hnb hcon')
      rw [hw] at this
      exact Bool.false_ne_true this
    show (sub.isPrefixOf (a :: (w' ++ ']' :: t)) ||
      hasSub (w' ++ ']' :: t) sub) = hasSub t sub
    rw [hp, Bool.false_or]
    exact ih hw'

theorem hasSub_marker_append {sub : List Char} (t : List Char)
    (hne : sub ≠ []) (hno : '[' ∉ sub) (hnc : ']' ∉ sub)
    (hni : hasSub "REDACTED".toList sub = false) :
    hasSub (redactionMarker ++ t) sub = hasSub t sub := by
  have hm : redactionMarker ++ t = '[' :: ("REDACTED".toList ++ ']' :: t) := rfl
  rw [hm]
  have h1 : sub.isPrefixOf ('[' :: ("REDACTED".toList ++ ']' :: t)) = false := by
    cases sub with
    | nil => exact absurd rfl hne
    | cons c cs =>
      by_cases hc : c = '['
      · exact absurd (hc ▸ List.mem_cons_self c cs) hno
      · simp [List.isPrefixOf, hc]
  simp only [hasSub, h1, Bool.false_or]
  exact hasSub_seg_close _ t hnc hne hni

theorem isPrefixOf_replaceAllFuel {pat : List Char} (fuel : Nat) :
    ∀ u w : List Char, u.length ≤ fuel → w ≠ [] → '[' ∉ w →
      w.isPrefixOf (replaceAllFuel pat redactionMarker fuel u) = true →
      w.isPrefixOf u = true := by
  induction fuel with
  | zero =>
    intro u w _ _ _ h
    simpa [replaceAllFuel] using h
  | succ fuel ih =>
    intro u w hfu hw hnb h
    cases u with
    | nil =>
      cases w with
      | nil => exact absurd rfl hw
      | cons c cs => simpa [replaceAllFuel, List.isPrefixOf] using h
    | cons c rest =>
      by_cases hp : pat.isPrefixOf (c :: rest)
      · rw [replaceAllFuel, if_pos hp] at h
        cases w with
        | nil => exact absurd rfl hw
        | cons a w' =>
          have h' : (a :: w').isPrefixOf ('[' :: ("REDACTED".toList ++ ']' ::
              replaceAllFuel pat redactionMarker fuel
                (rest.drop (pat.length - 1)))) = true := h
          simp only [List.isPrefixOf, Bool.and_eq_true, beq_iff_eq] at h'
          exact absurd (h'.1 ▸ List.mem_cons_self a w') hnb
      · rw [replaceAllFuel, if_neg hp] at h
        cases w with
        | nil => exact absurd rfl hw
        | cons a w' =>
          simp only [List.isPrefixOf, Bool.and_eq_true, beq_iff_eq] at h ⊢
          refine ⟨h.1, ?_⟩
          by_cases hw'e : w' = []
          · subst hw'e; simp [List.isPrefixOf]
          · exact ih rest w' (Nat.le_of_succ_le_succ hfu) hw'e
              (fun hm => hnb (List.mem_cons_of_mem _ hm)) h.2

theorem replaceAllFuel_no_pat {pat : List Char} (hne : pat ≠ [])
    (hno : '[' ∉ pat) (hnc : ']' ∉ pat)
    (hni : hasSub "REDACTED".toList pat = false) (fuel : Nat) :
    ∀ u : List Char, u.length ≤ fuel →
      hasSub (replaceAllFuel pat redactionMarker fuel u) pat = false := by
  induction fuel with
  | zero =>
    intro u hfu
    have hu : u = [] := List.length_eq_zero.mp (Nat.le_zero.mp hfu)
    subst hu
    simpa [replaceAllFuel, hasSub, List.isEmpty_iff] using hne
  | succ fuel ih =>
    intro u hfu
    cases u with
    | nil => simpa [replaceAllFuel, hasSub, List.isEmpty_iff] using hne
    | cons c rest =>
      by_cases hp : pat.isPrefixOf (c :: rest)
      · rw [replaceAllFuel, if_pos hp]
        rw [hasSub_marker_append _ hne hno hnc hni]
        apply ih
        rw [List.length_drop]
        exact le_trans (Nat.sub_le _ _) (Nat.le_of_succ_le_succ hfu)
      · rw [replaceAllFuel, if_neg hp]
        have h2 : hasSub (replaceAllFuel pat redactionMarker fuel rest) pat
            = false := ih rest (Nat.le_of_succ_le_succ hfu)
        have h1 : pat.isPrefixOf
            (c :: replaceAllFuel pat redactionMarker fuel rest) = false := by
          by_contra hcon
          have hcon' : pat.isPrefixOf
              (c :: replaceAllFuel pat redactionMarker fuel rest) = true := by
            simpa using hcon
          cases pat with
          | nil => exact hne rfl
          | cons p0 pt =>
            simp only [List.isPrefixOf, Bool.and_eq_true, beq_iff_eq] at hcon'
            apply hp
            simp only [List.isPrefixOf, Bool.and_eq_true, beq_iff_eq]
            refine ⟨hcon'.1, ?_⟩
            by_cases hpte : pt = []
            · subst hpte; simp [List.isPrefixOf]
            · exact isPrefixOf_replaceAllFuel fuel rest pt
                (Nat.le_of_succ_le_succ hfu) hpte
                (fun hm => hno (List.mem_cons_of_mem _ hm)) hcon'.2
        simp [hasSub, h1, h2]

theorem replaceAllFuel_keeps_no_sub {pat p : List Char} (hne : p ≠ [])
    (hno : '[' ∉ p) (hnc : ']' ∉ p)
    (hni : hasSub "REDACTED".toList p = false) (fuel : Nat) :
    ∀ u : List Char, u.length ≤ fuel → hasSub u p = false →
      hasSub (replaceAllFuel pat redactionMarker fuel u) p = false := by
  induction fuel with
  | zero =>
    intro u hfu hu
    have hu0 : u = [] := List.length_eq_zero.mp (Nat.le_zero.mp hfu)
    subst hu0
    simpa [replaceAllFuel] using hu
  | succ fuel ih =>
    intro u hfu hu
    cases u with
    | nil => simpa [replaceAllFuel] using hu
    | cons c rest =>
      by_cases hp : pat.isPrefixOf (c :: rest)
      · rw [replaceAllFuel, if_pos hp]
        rw [hasSub_marker_append _ hne hno hnc hni]
        exact ih _ (by
            rw [List.length_drop]
            exact le_trans (Nat.sub_le _ _) (Nat.le_of_succ_le_succ hfu))
          (hasSub_drop _ (hasSub_tail hu))
      · rw [replaceAllFuel, if_neg hp]
        have h2 : hasSub (replaceAllFuel pat redactionMarker fuel rest) p
            = false := ih rest (Nat.le_of_succ_le_succ hfu) (hasSub_tail hu)
        have h1 : p.isPrefixOf
            (c :: replaceAllFuel pat redactionMarker fuel rest) = false := by
          by_contra hcon
          have hcon' : p.isPrefixOf
              (c :: replaceAllFuel pat redactionMarker fuel rest) = true := by
            simpa using hcon
          cases p with
          | nil => exact hne rfl
          | cons p0 pt =>
            simp only [List.isPrefixOf, Bool.and_eq_true, beq_iff_eq] at hcon'
            have hpre : (p0 :: pt).isPrefixOf (c :: rest) = true := by
              simp only [List.isPrefixOf, Bool.and_eq_true, beq_iff_eq]
              refine ⟨hcon'.1, ?_⟩
              by_cases hpte : pt = []
              · subst hpte; simp [List.isPrefixOf]
              · exact isPrefixOf_replaceAllFuel fuel rest pt
                  (Nat.le_of_succ_le_succ hfu) hpte
                  (fun hm => hno (List.mem_cons_of_mem _ hm)) hcon'.2
            have hfalse := hasSub_of_isPrefixOf hpre
            rw [hu] at hfalse
            exact Bool.false_ne_true hfalse
        simp [hasSub, h1, h2]

theorem replaceAllFuel_id {pat r : List Char} (fuel : Nat) :
    ∀ u : List Char, hasSub u pat = false →
      replaceAllFuel pat r fuel u = u := by
  induction fuel with
  | zero => intro u _; rfl
  | succ fuel ih =>
    intro u hu
    cases u with
    | nil => rfl
    | cons c rest =>
      have hp : pat.isPrefixOf (c :: rest) = false := by
        by_contra hcon
        have hfalse := hasSub_of_isPrefixOf (by simpa using hcon :
          pat.isPrefixOf (c :: rest) = true)
        rw [hu] at hfalse
        exact Bool.false_ne_true hfalse
      rw [replaceAllFuel, if_neg (by simp [hp])]
      rw [ih rest (hasSub_tail hu)]
/-- A secret value that the redaction marker cannot re-create: non-empty,
containing neither `[` nor `]`, and not occurring inside the marker text
`REDACTED`. Realistic credentials satisfy this. -/
def safeSecret (p : List Char) : Bool :=
  !p.isEmpty && !p.contains '[' && !p.contains ']' &&
    !hasSub "REDACTED".toList p

theorem safeSecret_spec {p : List Char} (h : safeSecret p = true) :
    p ≠ [] ∧ '[' ∉ p ∧ ']' ∉ p ∧ hasSub "REDACTED".toList p = false := by
  simp only [safeSecret, Bool.and_eq_true, Bool.not_eq_true'] at h
  refine ⟨?_, ?_, ?_, h.2⟩
  · have h1 := h.1.1.1
    simpa [List.isEmpty_iff] using h1
  · have h2 := h.1.1.2
    simpa using h2
  · have h3 := h.1.2
    simpa using h3

theorem sanitizeStep_no_self {s p : List Char} (hne : p ≠ []) (hno : '[' ∉ p)
    (hnc : ']' ∉ p) (hni : hasSub "REDACTED".toList p = false) :
    hasSub (sanitizeStep s p) p = false := by
  have hpe : ¬p.isEmpty = true := by simp [List.isEmpty_iff, hne]
  unfold sanitizeStep replaceAll
  rw [if_neg hpe, if_neg hpe]
  exact replaceAllFuel_no_pat hne hno hnc hni s.length s le_rfl

theorem sanitizeStep_keeps {s pat p : List Char} (hne : p ≠ [])
    (hno : '[' ∉ p) (hnc : ']' ∉ p)
    (hni : hasSub "REDACTED".toList p = false) (hs : hasSub s p = false) :
    hasSub (sanitizeStep s pat) p = false := by
  unfold sanitizeStep
  by_cases hpe : pat.isEmpty
  · rw [if_pos hpe]; exact hs
  · rw [if_neg hpe]
    unfold replaceAll
    rw [if_neg hpe]
    exact replaceAllFuel_keeps_no_sub hne hno hnc hni s.length s le_rfl hs

theorem sanitizeStep_id {s pat : List Char} (hs : hasSub s pat = false) :
    sanitizeStep s pat = s := by
  unfold sanitizeStep
  by_cases hpe : pat.isEmpty
  · rw [if_pos hpe]
  · rw [if_neg hpe]
    unfold replaceAll
    rw [if_neg hpe]
    exact replaceAllFuel_id s.length s hs

theorem sanitizeMessage_scrubs_aux (m u p : List Char)
    (hu : safeSecret u = true) (hp : safeSecret p = true)
    (hb : safeSecret (basicAuthB64 u p) = true) :
    hasSub (sanitizeMessage m ⟨u, p⟩) p = false ∧
    hasSub (sanitizeMessage m ⟨u, p⟩) u = false ∧
    hasSub (sanitizeMessage m ⟨u, p⟩) (basicAuthB64 u p) = false := by
  obtain ⟨hp1, hp2, hp3, hp4⟩ := safeSecret_spec hp
  obtain ⟨hu1, hu2, hu3, hu4⟩ := safeSecret_spec hu
  obtain ⟨hb1, hb2, hb3, hb4⟩ := safeSecret_spec hb
  show hasSub (sanitizeStep (sanitizeStep (sanitizeStep m p) u)
      (basicAuthB64 u p)) p = false ∧
    hasSub (sanitizeStep (sanitizeStep (sanitizeStep m p) u)
      (basicAuthB64 u p)) u = false ∧
    hasSub (sanitizeStep (sanitizeStep (sanitizeStep m p) u)
      (basicAuthB64 u p)) (basicAuthB64 u p) = false
  have s1p : hasSub (sanitizeStep m p) p = false :=
    sanitizeStep_no_self hp1 hp2 hp3 hp4
  have s2p : hasSub (sanitizeStep (sanitizeStep m p) u) p = false :=
    sanitizeStep_keeps hp1 hp2 hp3 hp4 s1p
  have s2u : hasSub (sanitizeStep (sanitizeStep m p) u) u = false :=
    sanitizeStep_no_self hu1 hu2 hu3 hu4
  exact ⟨sanitizeStep_keeps hp1 hp2 hp3 hp4 s2p,
    sanitizeStep_keeps hu1 hu2 hu3 hu4 s2u,
    sanitizeStep_no_self hb1 hb2 hb3 hb4⟩

/-- C1 counterexample: with the non-empty username `u` and password `D]w`,
the message `uw` contains the username, yet the sanitized message still
contains the password as a substring — replacing the username re-creates
the password across a redaction-marker boundary. -/
theorem sanitizeMessage_leaks_password :
    "u".toList ≠ [] ∧ "D]w".toList ≠ [] ∧
    hasSub "uw".toList "u".toList = true ∧
    hasSub (sanitizeMessage "uw".toList ⟨"u".toList, "D]w".toList⟩)
      "D]w".toList = true := by decide

/-- C1 (amended): for every configuration whose non-empty username,
non-empty password, and Basic-Auth encoding each contain neither bracket
character and do not occur inside the marker text `REDACTED` (so the
redaction marker cannot re-create them), sanitizeMessage returns, for
every message, a string containing none of those three values as a
substring. -/
theorem sanitizeMessage_no_credentials (m u p : List Char)
    (hu : safeSecret u = true) (hp : safeSecret p = true)
    (hb : safeSecret (basicAuthB64 u p) = true) :
    hasSub (sanitizeMessage m ⟨u, p⟩) p = false ∧
    hasSub (sanitizeMessage m ⟨u, p⟩) u = false ∧
    hasSub (sanitizeMessage m ⟨u, p⟩) (basicAuthB64 u p) = false :=
  sanitizeMessage_scrubs_aux m u p hu hp hb

/-- C1 witness: concrete credentials `admin` / `hunter2` satisfy the
safety conditions and are scrubbed from a message that contains them. -/
theorem sanitizeMessage_no_credentials_witness :
    safeSecret "admin".toList = true ∧
    safeSecret "hunter2".toList = true ∧
    safeSecret (basicAuthB64 "admin".toList "hunter2".toList) = true ∧
    (hasSub (sanitizeMessage "auth admin:hunter2 rejected".toList
        ⟨"admin".toList, "hunter2".toList⟩) "hunter2".toList = false ∧
      hasSub (sanitizeMessage "auth admin:hunter2 rejected".toList
        ⟨"admin".toList, "hunter2".toList⟩) "admin".toList = false ∧
      hasSub (sanitizeMessage "auth admin:hunter2 rejected".toList
        ⟨"admin".toList, "hunter2".toList⟩)
        (basicAuthB64 "admin".toList "hunter2".toList) = false) :=
  ⟨by decide, by decide, by decide,
    sanitizeMessage_no_credentials "auth admin:hunter2 rejected".toList
      "admin".toList "hunter2".toList (by decide) (by decide) (by decide)⟩

/-- C5 counterexample: with username `u` and password `D]w` (both
non-empty), sanitizing the already-sanitized message `uw` changes it
again, so sanitization is not idempotent. -/
theorem sanitizeMessage_not_idempotent :
    "u".toList ≠ [] ∧ "D]w".toList ≠ [] ∧
    sanitizeMessage (sanitizeMessage "uw".toList ⟨"u".toList, "D]w".toList⟩)
        ⟨"u".toList, "D]w".toList⟩ ≠
      sanitizeMessage "uw".toList ⟨"u".toList, "D]w".toList⟩ := by decide

/-- C5 (amended): under the same safe-secret conditions as C1 — non-empty
username, password, and Basic-Auth encoding, none containing a bracket
character or occurring inside `REDACTED` — sanitizing an already-sanitized
message is a no-op. -/
theorem sanitizeMessage_idempotent_of_safe (m u p : List Char)
    (hu : safeSecret u = true) (hp : safeSecret p = true)
    (hb : safeSecret (basicAuthB64 u p) = true) :
    sanitizeMessage (sanitizeMessage m ⟨u, p⟩) ⟨u, p⟩ =
      sanitizeMessage m ⟨u, p⟩ := by
  obtain ⟨h1, h2, h3⟩ := sanitizeMessage_scrubs_aux m u p hu hp hb
  show sanitizeStep (sanitizeStep (sanitizeStep (sanitizeMessage m ⟨u, p⟩) p)
      u) (basicAuthB64 u p) = sanitizeMessage m ⟨u, p⟩
  rw [sanitizeStep_id h1, sanitizeStep_id h2, sanitizeStep_id h3]

/-- C5 witness: idempotence at the concrete credentials `admin` /
`hunter2` on a message containing them. -/
theorem sanitizeMessage_idempotent_of_safe_witness :
    safeSecret "admin".toList = true ∧
    safeSecret "hunter2".toList = true ∧
    safeSecret (basicAuthB64 "admin".toList "hunter2".toList) = true ∧
    sanitizeMessage (sanitizeMessage "auth admin:hunter2 rejected".toList
        ⟨"admin".toList, "hunter2".toList⟩)
        ⟨"admin".toList, "hunter2".toList⟩ =
      sanitizeMessage "auth admin:hunter2 rejected".toList
        ⟨"admin".toList, "hunter2".toList⟩ :=
  ⟨by decide, by decide, by decide,
    sanitizeMessage_idempotent_of_safe "auth admin:hunter2 rejected".toList
      "admin".toList "hunter2".toList (by decide) (by decide) (by decide)⟩

/-! ### C4: response parsing of `get` and `post` -/

/-- A concrete `JSON.parse` instance for counterexamples and witnesses:
parses only the literal `null`, throwing a syntax-error message on
anything else. -/
def sampleParse : JsonParse := fun s =>
  if s = "null".toList then .ok .null
  else .error "Unexpected token".toList

/-- A concrete configuration whose credentials do not occur in the
messages involved in the C4 scenarios. -/
def sampleConfig : AppConfig :=
  ⟨"http://h".toList, "admin".toList, "hunter2".toList, .full, none,
    false, false⟩

/-- A 200 response declaring a JSON content type whose body is not valid
JSON. -/
def badJsonResponse : HttpResponse :=
  ⟨200, "OK".toList, some "application/json; charset=utf-8".toList, none,
    "not json".toList⟩

/-- A 200 response declaring a JSON content type whose body is the JSON
literal `null`. -/
def okJsonResponse : HttpResponse :=
  ⟨200, "OK".toList, some "application/json; charset=utf-8".toList, none,
    "null".toList⟩

/-- C4 counterexample: a successful `get` whose response declares a JSON
content type but whose body does not parse fails with an error instead of
returning the raw body text — the raw-text fallback exists only in
`post` (`parseResponse` propagates the `response.json()` throw). -/
theorem get_unparsable_json_fails :
    hasSub (badJsonResponse.contentType.getD []) "json".toList = true ∧
    sampleParse badJsonResponse.body = .error "Unexpected token".toList ∧
    clientGet sampleParse sampleConfig "status".toList
        (.response badJsonResponse) ≠
      .ok (.text "not json".toList) :=
  ⟨by decide, rfl, fun h => Except.noConfusion h⟩

/-- C4 (amended): for both operations a successful response with a JSON
content type and a parseable body yields the parsed value, and a
`text/plain` response yields the body verbatim; an unparseable JSON body
makes `post` (outside its zero-content-length and empty-body special
cases) fall back to the raw body text, but makes `get` fail with a
sanitized error rather than return the raw text. -/
theorem client_content_type_handling (parse : JsonParse) (cfg : AppConfig)
    (path : List Char) (reqBody : Option Json) (r : HttpResponse)
    (hok : responseOk r = true) :
    (∀ v, hasSub (r.contentType.getD []) "json".toList = true →
      parse r.body = .ok v →
      clientGet parse cfg path (.response r) = .ok (.json v) ∧
      (r.contentLength ≠ some ['0'] → r.body ≠ [] →
        clientPost parse cfg path reqBody (.response r) = .ok (.json v))) ∧
    (r.contentType = some "text/plain".toList →
      clientGet parse cfg path (.response r) = .ok (.text r.body) ∧
      (r.contentLength ≠ some ['0'] → r.body ≠ [] →
        clientPost parse cfg path reqBody (.response r) =
          .ok (.text r.body))) ∧
    (∀ em, hasSub (r.contentType.getD []) "json".toList = true →
      parse r.body = .error em →
      clientGet parse cfg path (.response r) =
        .error ⟨sanitizeMessage em (sanCfg cfg), none⟩ ∧
      (r.contentLength ≠ some ['0'] → r.body ≠ [] →
        clientPost parse cfg path reqBody (.response r) =
          .ok (.text r.body))) := by
  refine ⟨?_, ?_, ?_⟩
  · intro v hct hpv
    have hct' : hasSub (r.contentType.getD []) ['j', 's', 'o', 'n'] = true :=
      hct
    refine ⟨by simp [clientGet, parseResponse, hok, hct', hpv], ?_⟩
    intro hcl hbe
    have hcl' : (r.contentLength == some ['0']) = false :=
      beq_eq_false_iff_ne.mpr hcl
    have hbe' : r.body.isEmpty = false := by
      simp [List.isEmpty_iff, hbe]
    simp [clientPost, hok, hcl', hbe', hct', hpv]
  · intro hct
    have hcj : hasSub (r.contentType.getD []) ['j', 's', 'o', 'n'] = false := by
      rw [hct]; decide
    refine ⟨by simp [clientGet, parseResponse, hok, hcj], ?_⟩
    intro hcl hbe
    have hcl' : (r.contentLength == some ['0']) = false :=
      beq_eq_false_iff_ne.mpr hcl
    have hbe' : r.body.isEmpty = false := by
      simp [List.isEmpty_iff, hbe]
    simp [clientPost, hok, hcl', hbe', hcj]
  · intro em hct hpe
    have hct' : hasSub (r.contentType.getD []) ['j', 's', 'o', 'n'] = true :=
      hct
    refine ⟨by simp [clientGet, parseResponse, hok, hct', hpe], ?_⟩
    intro hcl hbe
    have hcl' : (r.contentLength == some ['0']) = false :=
      beq_eq_false_iff_ne.mpr hcl
    have hbe' : r.body.isEmpty = false := by
      simp [List.isEmpty_iff, hbe]
    simp [clientPost, hok, hcl', hbe', hct', hpe]

/-- C4 witness: a parseable JSON body is returned parsed by `get`, an
unparseable one is returned as raw text by `post`. -/
theorem client_content_type_handling_witness :
    responseOk okJsonResponse = true ∧
    sampleParse okJsonResponse.body = .ok .null ∧
    clientGet sampleParse sampleConfig "status".toList
      (.response okJsonResponse) = .ok (.json .null) ∧
    clientPost sampleParse sampleConfig "stats_reset".toList none
      (.response badJsonResponse) = .ok (.text "not json".toList) :=
  ⟨by decide, rfl,
    ((client_content_type_handling sampleParse sampleConfig "status".toList
      none okJsonResponse (by decide)).1 .null (by decide) rfl).1,
    ((client_content_type_handling sampleParse sampleConfig
        "stats_reset".toList none badJsonResponse (by decide)).2.2
      "Unexpected token".toList (by decide) rfl).2
      (fun h => Option.noConfusion h) (fun h => List.noConfusion h)⟩

end AdGuard
